import Mathlib

/-!
Shallow embedding of the pack/index reader of `vektra/gitreader` (Go).

Bytes are modelled as `Nat` (values < 256 in well-formed inputs); byte
buffers and memory-mapped files are `List Nat`.  Go's machine arithmetic is
made explicit: `uint32` operations reduce modulo `2^32` (`u32`, `u32sub`)
and `uint64` shifts reduce modulo `2^64`.  A Go runtime panic
(out-of-range index or slice) is the `Outcome.crash` result; a structured
Go `error` return is `Outcome.err`; loops and recursions that the source
performs without a bound are given explicit fuel, and running out of fuel
is `Outcome.diverge` (so `∀ fuel, f fuel x = .diverge` exhibits genuine
nontermination of the source).  zlib decompression is out of scope of the
repository's own code and is passed in as an abstract total function
`inflate : List Nat → Option (List Nat)` (`none` = the zlib reader fails).
-/

set_option maxRecDepth 100000

/-- Error values of the library (`errors.New` values in the source). -/
inductive GitError where
  | notExist      -- object.go: ErrNotExist "object does not exist"
  | notFound      -- pack.go: ErrNotFound (declared, unused by these paths)
  | badIndex      -- pack.go: ErrBadIndex
  | badPack       -- pack.go: ErrBadPack
  | badDelta      -- pack.go: ErrBadDelta
  | unknownType   -- pack.go: ErrUnknownType
  | invalidHex    -- hex.DecodeString failure inside FindOffset
  | zlibError     -- zlib.NewReader / decompression failure
  | unknownRef    -- repo.go: ErrUnknownRef
  | ioError       -- underlying filesystem read error
deriving DecidableEq

/-- Result of running a piece of the Go code: a normal value, a returned
`error`, a runtime panic (`crash`), or nontermination (`diverge`, reported
when the modelling fuel runs out). -/
inductive Outcome (α : Type) where
  | ok : α → Outcome α
  | err : GitError → Outcome α
  | crash : Outcome α
  | diverge : Outcome α
deriving DecidableEq

/-- Sequencing of Go statements: errors, panics and nontermination
propagate. -/
def Outcome.bind {α β : Type} : Outcome α → (α → Outcome β) → Outcome β
  | .ok a, f => f a
  | .err e, _ => .err e
  | .crash, _ => .crash
  | .diverge, _ => .diverge

/-- Go `uint32` truncation. -/
def u32 (x : Nat) : Nat := x % 4294967296

/-- Go `uint32` subtraction `a - b` (wraps modulo `2^32`); callers pass
`a < 2^32`. -/
def u32sub (a b : Nat) : Nat := (a + 4294967296 - b % 4294967296) % 4294967296

/-- Go slice expression `l[i:j]`: defined when `i ≤ j ≤ len(l)`, otherwise
a runtime panic (`none`). -/
def sliceGo (l : List Nat) (i j : Nat) : Option (List Nat) :=
  if i ≤ j ∧ j ≤ l.length then some ((l.drop i).take (j - i)) else none

/-- Go slice expression `l[i:]`. -/
def sliceFrom (l : List Nat) (i : Nat) : Option (List Nat) :=
  if i ≤ l.length then some (l.drop i) else none

/-- `binary.BigEndian.Uint32`: reads the first four bytes, panics
(`none`) on a shorter slice. -/
def uint32be : List Nat → Option Nat
  | b0 :: b1 :: b2 :: b3 :: _ => some (((b0 * 256 + b1) * 256 + b2) * 256 + b3)
  | _ => none

/-- `order.Uint32(l[k:])`: Go slicing followed by a big-endian 32-bit
read; `none` is a panic. -/
def u32At (l : List Nat) (k : Nat) : Option Nat :=
  match sliceFrom l k with
  | none => none
  | some s => uint32be s

/-- `bytes.Compare`: lexicographic byte comparison, a strict prefix is
smaller. -/
def compareBytes : List Nat → List Nat → Ordering
  | [], [] => .eq
  | [], _ :: _ => .lt
  | _ :: _, [] => .gt
  | a :: as, b :: bs => if a < b then .lt else if b < a then .gt else compareBytes as bs

/-- `hex.DecodeString` on one ASCII hex digit. -/
def hexVal (c : Nat) : Option Nat :=
  if 48 ≤ c ∧ c ≤ 57 then some (c - 48)
  else if 97 ≤ c ∧ c ≤ 102 then some (c - 87)
  else if 65 ≤ c ∧ c ≤ 70 then some (c - 55)
  else none

/-- `hex.DecodeString`: ASCII hex characters to raw bytes; `none` on a
non-hex character or odd length (the Go function returns an error). -/
def hexDecode : List Nat → Option (List Nat)
  | [] => some []
  | [_] => none
  | a :: b :: rest =>
    match hexVal a, hexVal b, hexDecode rest with
    | some x, some y, some tl => some ((x * 16 + y) :: tl)
    | _, _, _ => none

/-- Lowercase hex digit of a nibble (`hex.EncodeToString`). -/
def hexDigit (n : Nat) : Nat := if n < 10 then 48 + n else 87 + n

/-- `hex.EncodeToString`: raw bytes to ASCII lowercase hex characters. -/
def hexEncode : List Nat → List Nat
  | [] => []
  | b :: rest => hexDigit (b / 16) :: hexDigit (b % 16) :: hexEncode rest

/-- pack.go `decodeVarint`, inner loop: little-endian-continuation varint.
`x` is a `uint64` accumulator, `shift` the current shift, `n` the number
of bytes consumed so far.  Reading `buf[n]` past the end of the buffer is
a Go index panic (`none`). -/
def decodeVarintAux : List Nat → Nat → Nat → Nat → Option (Nat × Nat)
  | [], _, _, _ => none
  | b :: rest, x, shift, n =>
    let x2 := x ||| (((b &&& 0x7F) <<< shift) % 18446744073709551616)
    if b &&& 0x80 = 0 then some (x2, n + 1)
    else decodeVarintAux rest x2 (shift + 7) (n + 1)

/-- pack.go `decodeVarint(buf) (x uint64, n int)`.  `none` models the
unchecked `buf[n]` index running past the end of the buffer (runtime
panic). -/
def decodeVarint (buf : List Nat) : Option (Nat × Nat) :=
  decodeVarintAux buf 0 0 0

/-- Go `copy(dst, src)` semantics on list contents: the first
`min |dst| |src|` positions take bytes of `src`, the rest keep `dst`. -/
def goCopy (dst src : List Nat) : List Nat :=
  src.take dst.length ++ dst.drop src.length

/-- `copy(result[loc:], src)` for `loc ≤ |result|`: result contents after
the copy. -/
def setRange (result : List Nat) (loc : Nat) (src : List Nat) : List Nat :=
  result.take loc ++ goCopy (result.drop loc) src

/-- The copy-instruction operand loops in pack.go `applyDelta`: for each
`(bit, sh)` pair, if bit `bit` of `op` is set, read `patch[i]` (index
panic past the end: `none`), advance `i`, and OR the byte in at shift
`sh`. -/
def fieldAssemble (op : Nat) (patch : List Nat) : Nat → List (Nat × Nat) → Nat → Option (Nat × Nat)
  | i, [], acc => some (acc, i)
  | i, (bit, sh) :: rest, acc =>
    if op &&& (1 <<< bit) ≠ 0 then
      match patch.get? i with
      | none => none
      | some x => fieldAssemble op patch (i + 1) rest (acc ||| (x <<< sh))
    else fieldAssemble op patch i rest acc

/-- pack.go `applyDelta`: `if copyLength == 0 { copyLength = 1 << 16 }`. -/
def copyLen (cl0 : Nat) : Nat := if cl0 = 0 then 65536 else cl0

/-- pack.go `applyDelta`, main instruction loop (`for len(patch) > 0`).
State: remaining `patch`, current `result` buffer, write cursor `loc`.
Returns the final buffer and cursor.  One fuel unit per iteration (each
iteration consumes at least one patch byte, so `|patch| + 1` fuel is
always enough); Go slice/index panics are `crash`. -/
def applyDeltaLoop (base : List Nat) : Nat → List Nat → List Nat → Nat → Outcome (List Nat × Nat)
  | 0, _, _, _ => .diverge
  | _ + 1, [], result, loc => .ok (result, loc)
  | fuel + 1, op :: rest, result, loc =>
    if op = 0 then .err .badDelta
    else if op &&& 0x80 = 0 then
      -- insert: copy(result[loc:], patch[1:1+op]); loc += op; patch = patch[1+op:]
      if result.length < loc ∨ rest.length < op then .crash
      else applyDeltaLoop base fuel (rest.drop op) (setRange result loc (rest.take op)) (loc + op)
    else
      match fieldAssemble op (op :: rest) 1 [(0, 0), (1, 8), (2, 16), (3, 24)] 0 with
      | none => .crash
      | some (copyOffset, i1) =>
        match fieldAssemble op (op :: rest) i1 [(4, 0), (5, 8), (6, 16)] 0 with
        | none => .crash
        | some (cl0, i2) =>
          if copyOffset + copyLen cl0 > base.length then .err .badDelta
          else if result.length < loc then .crash
          else if copyLen cl0 > result.length - loc then .err .badDelta
          else applyDeltaLoop base fuel ((op :: rest).drop i2)
            (setRange result loc ((base.drop copyOffset).take (copyLen cl0))) (loc + copyLen cl0)

/-- pack.go `applyDelta(base_r, patch_r)`: both streams are modelled
already fully read (`ioutil.ReadAll`).  Decodes the base-length varint,
checks it against `|base|`, decodes the result-length varint, allocates a
zeroed buffer of that size, and runs the instruction loop.  Returns the
reconstructed bytes and the declared result length. -/
def applyDelta (base patch : List Nat) : Outcome (List Nat × Nat) :=
  match decodeVarint patch with
  | none => .crash
  | some (baseLength, n) =>
    if baseLength ≠ base.length then .err .badDelta
    else
      match decodeVarint (patch.drop n) with
      | none => .crash
      | some (resultLength, n2) =>
        let patch3 := (patch.drop n).drop n2
        match applyDeltaLoop base (patch3.length + 1) patch3 (List.replicate resultLength 0) 0 with
        | .ok (result, _) => .ok (result, resultLength)
        | .err e => .err e
        | .crash => .crash
        | .diverge => .diverge

/-- A pack: the two memory-mapped files (`p.index` is `<prefix>.idx`,
`p.data` is `<prefix>.pack`), as raw bytes. -/
structure Pack where
  index : List Nat
  data : List Nat

/-- pack.go `Pack.FindOffset`, binary-search loop, instrumented.

Source loop state: `lo, hi, cnt, loc, suspect, cmp` with
`loc = 8 + 1024 + cnt*20` and `suspect = p.index[loc : loc+20]`.  Each
iteration compares `idBytes` to `suspect`; on equality it computes
`n := (loc-1032)/20`, `offsetBase := 1032 + 20*size + 4*size` and returns
`order.Uint32(p.index[offsetBase+4*n:])`; otherwise it halves
`[lo, hi)` (note: initialized to `[0, size)`, NOT to the fan-out window)
and re-probes at `cnt := (lo+hi)/2`, returning `ErrNotExist` when the
interval empties.  All arithmetic is `uint32`.

In addition to the source's result, the model returns the list of `cnt`
values at which a 20-byte id comparison was actually performed
(observational instrumentation only; it affects no control flow). -/
def findOffsetLoop (p : Pack) (idBytes : List Nat) (size : Nat) :
    Nat → Nat → Nat → Nat → Nat → Outcome Nat × List Nat
  | 0, _, _, _, _ => (.diverge, [])
  | fuel + 1, lo, hi, cnt, loc =>
    match sliceGo p.index loc (u32 (loc + 20)) with
    | none => (.crash, [])
    | some suspect =>
      let r : Outcome Nat × List Nat :=
        match compareBytes idBytes suspect with
        | .eq =>
          let n := u32sub loc 1032 / 20
          let offsetBase := u32 (1032 + 20 * size + 4 * size)
          (match u32At p.index (u32 (offsetBase + 4 * n)) with
           | none => (.crash, [])
           | some offset => (.ok offset, []))
        | cmp =>
          let lo2 := if cmp = .lt then lo else u32 (cnt + 1)
          let hi2 := if cmp = .lt then cnt else hi
          if lo2 ≥ hi2 then (.err .notExist, [])
          else
            let cnt2 := u32 (lo2 + hi2) / 2
            let loc2 := u32 (8 + 1024 + cnt2 * 20)
            findOffsetLoop p idBytes size fuel lo2 hi2 cnt2 loc2
      (r.1, cnt :: r.2)

/-- pack.go `Pack.FindOffset(id string)`, instrumented with the list of
compared id slots (see `findOffsetLoop`).  `id` is the ASCII hex string.
Steps of the source, in order: `hex.DecodeString(id)` (its error is
returned); `fan := p.index[8:1032]` (panic on a shorter index);
`size := order.Uint32(fan[1020:])`;
`cnt := order.Uint32(fan[4*id[0]:])` — note that `id[0]` is the first
byte of the HEX STRING and `4*id[0]` is `uint8` arithmetic, hence the
fan-out table is read at byte offset `4*id[0] mod 256`; then the binary
search with `lo, hi = 0, size` starting at probe `cnt`.
The loop fuel `size + 2` is generous: the search halves `[lo, hi) ⊆
[0, size)` after the first iteration. -/
def findOffsetRun (p : Pack) (id : List Nat) : Outcome Nat × List Nat :=
  match hexDecode id with
  | none => (.err .invalidHex, [])
  | some idBytes =>
    match sliceGo p.index 8 1032 with
    | none => (.crash, [])
    | some fan =>
      match u32At fan 1020 with
      | none => (.crash, [])
      | some size =>
        match id with
        | [] => (.crash, [])  -- id[0] on the empty string is an index panic
        | c0 :: _ =>
          match u32At fan (4 * c0 % 256) with
          | none => (.crash, [])
          | some cnt =>
            findOffsetLoop p idBytes size (size + 2) 0 size cnt (u32 (8 + 1024 + cnt * 20))

/-- pack.go `Pack.FindOffset`: the source's actual return value. -/
def findOffset (p : Pack) (id : List Nat) : Outcome Nat :=
  (findOffsetRun p id).1

/-- pack.go `readRaw`, type extraction from the first header byte:
`objType := int(objHeader & 0x71 >> 4)`.  Go's `&` and `>>` share
precedence level 5 and associate left, so this is `(b & 0x71) >> 4`. -/
def objTypeOfHeader (b : Nat) : Nat := (b &&& 0x71) >>> 4

/-- pack.go `readRaw`, size low bits from the first header byte:
`objSize := uint64(objHeader & 0x0F)`. -/
def sizeLowBits (b : Nat) : Nat := b &&& 0x0F

/-- pack.go `readRaw`, entry-size varint loop:
`for objHeader&0x80 != 0 { i++; objHeader = p.data[offset+i];
objSize |= uint64(objHeader&0x7F) << shift; shift += 7 }`.
State: current header byte `h`, `uint64` accumulator `sz`, byte count
`i`, shift.  `offset + i` is `uint32` arithmetic; reading past the data
is an index panic. -/
def sizeLoop (data : List Nat) (offset : Nat) : Nat → Nat → Nat → Nat → Nat → Outcome (Nat × Nat)
  | 0, _, _, _, _ => .diverge
  | fuel + 1, h, sz, i, shift =>
    if h &&& 0x80 = 0 then .ok (sz, i)
    else
      match data.get? (u32 (offset + (i + 1))) with
      | none => .crash
      | some h2 =>
        sizeLoop data offset fuel h2 (sz ||| ((h2 &&& 0x7F) <<< shift) % 18446744073709551616)
          (i + 1) (shift + 7)

/-- pack.go `readRaw`, entry header parse at `offset`: reads
`p.data[offset]` (index panic if out of range), extracts the type code
and low size bits, then runs the entry-size varint loop.  Returns
`(objType, objSize, i)` where `i` is the index of the last header byte
relative to `offset`. -/
def entryHeader (p : Pack) (offset : Nat) : Outcome (Nat × Nat × Nat) :=
  match p.data.get? offset with
  | none => .crash
  | some objHeader =>
    (sizeLoop p.data offset (p.data.length + 2) objHeader (sizeLowBits objHeader) 0 4).bind
      fun (szi : Nat × Nat) => .ok (objTypeOfHeader objHeader, szi.1, szi.2)

/-- pack.go `readRaw`, ofs-delta offset varint loop:
`for b&0x80 != 0 { i++; b = p.data[offset+i];
baseOffset = ((baseOffset+1)<<7) | uint32(b&0x7F) }` — big-endian
continuation with the +1 increment, in `uint32` arithmetic. -/
def ofsLoop (data : List Nat) (offset : Nat) : Nat → Nat → Nat → Nat → Outcome (Nat × Nat)
  | 0, _, _, _ => .diverge
  | fuel + 1, b, baseOffset, i =>
    if b &&& 0x80 = 0 then .ok (baseOffset, i)
    else
      match data.get? (u32 (offset + (i + 1))) with
      | none => .crash
      | some b2 =>
        ofsLoop data offset fuel b2 (u32 ((baseOffset + 1) <<< 7) ||| (b2 &&& 0x7F)) (i + 1)

/-- pack.go `readRaw`, common tail: `buf := bytes.NewReader(
p.data[offset+i+1:])` (slice panic if out of range), zlib-decompress it
(`inflate`; a zlib failure is the returned error), and if a delta base is
present run `applyDelta` and replace the size with the delta's result
length.  Returns `(objType, objSize, body bytes)`. -/
def finishTail (inflate : List Nat → Option (List Nat)) (p : Pack)
    (offset i objType objSize : Nat) (rawBase : Option (List Nat)) :
    Outcome (Nat × Nat × List Nat) :=
  match sliceFrom p.data (u32 (offset + i + 1)) with
  | none => .crash
  | some payload =>
    match inflate payload with
    | none => .err .zlibError
    | some raw =>
      match rawBase with
      | none => .ok (objType, objSize, raw)
      | some bbytes =>
        (applyDelta bbytes raw).bind fun (rr : List Nat × Nat) => .ok (objType, rr.2, rr.1)

/-- pack.go `Pack.readRaw(offset)`, with recursion fuel for the delta
chain.  Parses the entry header; for type 6 (ofs-delta) decodes the base
offset varint, fails with `ErrBadDelta` when
`baseOffset > uint32(len(p.data)) || baseOffset > offset` (note: a ZERO
base offset passes this check and recurses on the SAME offset), and
recurses at `offset - baseOffset`; for type 7 (ref-delta) reads the
20-byte base id, looks it up with THIS pack's own `FindOffset`
(`hex.EncodeToString` then `FindOffset` hex-decodes it back), and
recurses there; otherwise no base.  Then the common tail. -/
def readRaw (inflate : List Nat → Option (List Nat)) (p : Pack) :
    Nat → Nat → Outcome (Nat × Nat × List Nat)
  | 0, _ => .diverge
  | fuel + 1, offset =>
    (entryHeader p offset).bind fun (hdr : Nat × Nat × Nat) =>
      if hdr.1 = 6 then
        match p.data.get? (u32 (offset + (hdr.2.2 + 1))) with
        | none => .crash
        | some b =>
          (ofsLoop p.data offset (p.data.length + 2) b (b &&& 0x7F) (hdr.2.2 + 1)).bind
            fun (bo : Nat × Nat) =>
              if bo.1 > u32 p.data.length ∨ bo.1 > offset then .err .badDelta
              else
                (readRaw inflate p fuel (u32sub offset bo.1)).bind
                  fun (bres : Nat × Nat × List Nat) =>
                    finishTail inflate p offset bo.2 bres.1 bres.2.1 (some bres.2.2)
      else if hdr.1 = 7 then
        match sliceGo p.data (u32 (offset + hdr.2.2 + 1)) (u32 (offset + hdr.2.2 + 21)) with
        | none => .crash
        | some baseId =>
          (findOffset p (hexEncode baseId)).bind fun baseOffset =>
            (readRaw inflate p fuel baseOffset).bind
              fun (bres : Nat × Nat × List Nat) =>
                finishTail inflate p offset (hdr.2.2 + 20) bres.1 bres.2.1 (some bres.2.2)
      else finishTail inflate p offset hdr.2.2 hdr.1 hdr.2.1 none

/-- object.go `Object`, restricted to the fields the pack reader fills:
the type tag, the declared size, and the body bytes obtained by fully
consuming the object's stream. -/
structure Obj where
  type : String
  size : Nat
  body : List Nat
deriving DecidableEq

/-- pack.go `Pack.readObject(offset)`: runs `readRaw` and wraps the
result in an `Object`, mapping type codes 1/2/3 to commit/tree/blob and
anything else to `ErrUnknownType`. -/
def readObject (inflate : List Nat → Option (List Nat)) (p : Pack) (fuel offset : Nat) :
    Outcome Obj :=
  (readRaw inflate p fuel offset).bind fun (r : Nat × Nat × List Nat) =>
    if r.1 = 1 then .ok ⟨"commit", r.2.1, r.2.2⟩
    else if r.1 = 2 then .ok ⟨"tree", r.2.1, r.2.2⟩
    else if r.1 = 3 then .ok ⟨"blob", r.2.1, r.2.2⟩
    else .err .unknownType

/-- pack.go `Pack.LoadObject(id)`: `FindOffset` then `readObject`. -/
def packLoadObject (inflate : List Nat → Option (List Nat)) (p : Pack) (fuel : Nat)
    (id : List Nat) : Outcome Obj :=
  (findOffset p id).bind fun offset => readObject inflate p fuel offset

/-- repo.go `Repo.LoadObject(id)`: queries loaders in order; a loader's
`ErrNotExist` falls through to the next, any other error aborts, and the
result is `ErrNotExist` when every loader was exhausted. -/
def repoLoadObject (loaders : List (List Nat → Outcome Obj)) (id : List Nat) : Outcome Obj :=
  match loaders with
  | [] => .err .notExist
  | l :: rest =>
    match l id with
    | .err .notExist => repoLoadObject rest id
    | o => o

/-- `strings.TrimSpace`, on the ASCII whitespace characters that occur in
reference files (TrimSpace also trims other Unicode space, which never
appears in these single-line files). -/
def isSpaceChar (c : Char) : Bool := c = ' ' ∨ c = '\n' ∨ c = '\t' ∨ c = '\r'

/-- `strings.TrimSpace(s)`: drop whitespace from both ends. -/
def trimSpace (s : String) : String :=
  ⟨(((s.data.dropWhile isSpaceChar).reverse).dropWhile isSpaceChar).reverse⟩

/-- Go string slice `s[0:n]` (ASCII contents, so bytes = chars). -/
def strTake (s : String) (n : Nat) : String := ⟨s.data.take n⟩

/-- Go string slice `s[n:]` (ASCII contents). -/
def strDrop (s : String) (n : Nat) : String := ⟨s.data.drop n⟩

/-- The reference files of a repository, for repo.go's `ResolveRef` /
`resolveIndirect`.  `fileContent p` is the raw content of the file at
path `p` relative to the repository base (`none`: `ioutil.ReadFile`
fails).  `isCommit id` models `r.LoadObject(id)` succeeding with an
object of type `"commit"` (no recursion through reference files occurs in
that call). -/
structure RefFS where
  fileContent : String → Option String
  isCommit : String → Bool

mutual

/-- repo.go `Repo.ResolveRef(ref)`: `"HEAD"` goes through
`resolveIndirect`; otherwise try `refs/heads/<ref>`, `refs/tags/<ref>`,
then the literal path `<ref>`, returning the trimmed file content AS IS
(no `ref:` chasing on these branches); finally treat `ref` as a raw
commit id.  Fuel counts recursion depth; exhaustion is `diverge`. -/
def resolveRef (fs : RefFS) : Nat → String → Outcome String
  | 0, _ => .diverge
  | fuel + 1, ref =>
    if ref = "HEAD" then resolveIndirect fs fuel "HEAD"
    else
      match fs.fileContent ("refs/heads/" ++ ref) with
      | some data => .ok (trimSpace data)
      | none =>
        match fs.fileContent ("refs/tags/" ++ ref) with
        | some data => .ok (trimSpace data)
        | none =>
          match fs.fileContent ref with
          | some data => .ok (trimSpace data)
          | none => if fs.isCommit ref then .ok ref else .err .unknownRef

/-- repo.go `Repo.resolveIndirect(path)`: read the file, trim; if the
trimmed content is shorter than 4 bytes, `id[0:4]` is a string-slice
panic; if it starts with `"ref:"`, recurse through `ResolveRef` on the
trimmed remainder; otherwise return it. -/
def resolveIndirect (fs : RefFS) : Nat → String → Outcome String
  | 0, _ => .diverge
  | fuel + 1, path =>
    match fs.fileContent path with
    | none => .err .ioError
    | some data =>
      let id := trimSpace data
      if id.data.length < 4 then .crash
      else if strTake id 4 = "ref:" then resolveRef fs fuel (trimSpace (strDrop id 4))
      else .ok id

end

/-- The only indirection cycle repo.go can follow: `resolveIndirect` is
reached only for the `HEAD` file, and its `ref:` target re-enters it only
when the target is the literal name `HEAD`.  `headOk fs = true` says the
`HEAD` chain is acyclic. -/
def headOk (fs : RefFS) : Bool :=
  match fs.fileContent "HEAD" with
  | none => true
  | some data =>
    let id := trimSpace data
    if 4 ≤ id.data.length ∧ strTake id 4 = "ref:" ∧ trimSpace (strDrop id 4) = "HEAD" then false
    else true

/-! ### Concrete fixtures used by counterexamples and witnesses -/

/-- The version-2 pack index magic `FF 74 4F 63 00 00 00 02`. -/
def idxMagic : List Nat := [255, 116, 79, 99, 0, 0, 0, 2]

/-- Index with a single stored id `FF…FF`: every fan-out entry below 255
is 0, so for a target id starting with byte `0x00` the fan-out window
`[fan[-1], fan[0]) = [0, 0)` is empty. -/
def cex1Pack : Pack :=
  ⟨idxMagic ++ List.replicate 1020 0 ++ [0, 0, 0, 1] ++ List.replicate 20 255
    ++ List.replicate 4 0 ++ [0, 0, 0, 0], []⟩

/-- The hex id string `"00…0"` (40 ASCII `'0'` characters), decoding to
the 20-byte id `00…00`. -/
def cex1Id : List Nat := List.replicate 40 48

/-- Index holding ids `00…00` and `FF…FF`, where the offset-table entry
of `00…00` is `80 00 00 00`, i.e. has its high bit set. -/
def cex3Pack : Pack :=
  ⟨idxMagic ++ List.flatten (List.replicate 255 [0, 0, 0, 1]) ++ [0, 0, 0, 2]
    ++ List.replicate 20 0 ++ List.replicate 20 255
    ++ List.replicate 8 0 ++ [128, 0, 0, 0] ++ [0, 0, 0, 0], []⟩

/-- Pack data `60 00`: at offset 0 an ofs-delta entry (type 6, size 0)
whose base-offset varint is the single byte `00`, i.e. base offset 0. -/
def cex4Pack : Pack := ⟨[], [96, 0]⟩

/-- An abstract zlib: every stream inflates to the single byte `42`. -/
def inflateConst : List Nat → Option (List Nat) := fun _ => some [42]

/-- Valid single-blob pack: the index stores ids `00…00` and `FF…FF`, both
with offset 0; the data is one byte `31` — a blob entry (type 3) of
declared size 1 whose payload inflates (under `inflateConst`) to one
byte. -/
def p8 : Pack :=
  ⟨idxMagic ++ List.flatten (List.replicate 255 [0, 0, 0, 1]) ++ [0, 0, 0, 2]
    ++ List.replicate 20 0 ++ List.replicate 20 255
    ++ List.replicate 8 0 ++ [0, 0, 0, 0] ++ [0, 0, 0, 0], [49]⟩

/-- Pack holding id `01…01` (and `FF…FF`) whose entry at offset 0 is a
ref-delta (type byte `70`) with 20-byte base id `02…02` — a base id NOT
present in this pack's own index. -/
def packD : Pack :=
  ⟨idxMagic ++ [0, 0, 0, 0] ++ List.flatten (List.replicate 254 [0, 0, 0, 1]) ++ [0, 0, 0, 2]
    ++ List.replicate 20 1 ++ List.replicate 20 255
    ++ List.replicate 8 0 ++ [0, 0, 0, 0] ++ [0, 0, 0, 0],
   [112] ++ List.replicate 20 2⟩

/-- A second pack in the same repository, holding the base id `02…02` as
a plain blob entry. -/
def packX : Pack :=
  ⟨idxMagic ++ [0, 0, 0, 0] ++ [0, 0, 0, 0] ++ List.flatten (List.replicate 253 [0, 0, 0, 1])
    ++ [0, 0, 0, 2]
    ++ List.replicate 20 2 ++ List.replicate 20 255
    ++ List.replicate 8 0 ++ [0, 0, 0, 0] ++ [0, 0, 0, 0], [49]⟩

/-- Hex id string `"0101…01"` of the ref-delta object in `packD`. -/
def idD : List Nat := List.flatten (List.replicate 20 [48, 49])

/-- Hex id string `"0202…02"` of the base object, stored only in `packX`. -/
def idX : List Nat := List.flatten (List.replicate 20 [48, 50])

/-- Reference files with a cyclic indirection: `HEAD` contains
`"ref: HEAD"`. -/
def cycFS : RefFS := ⟨fun p => if p = "HEAD" then some "ref: HEAD" else none, fun _ => false⟩

/-- Reference files with an acyclic chain: `HEAD` → `refs/heads/master`
→ a commit id. -/
def fsA : RefFS :=
  ⟨fun p => if p = "HEAD" then some "ref: refs/heads/master"
    else if p = "refs/heads/master" then some "abc123\n" else none, fun _ => false⟩

/-! ### Helper lemmas about the delta applier -/

theorem goCopy_length (dst src : List Nat) : (goCopy dst src).length = dst.length := by
  simp [goCopy]
  omega

theorem setRange_length (result src : List Nat) (loc : Nat) (h : loc ≤ result.length) :
    (setRange result loc src).length = result.length := by
  simp [setRange, goCopy_length]
  omega

theorem dropAppend (l1 l2 : List Nat) (m : Nat) (h : l1.length ≤ m) :
    (l1 ++ l2).drop m = l2.drop (m - l1.length) := by
  induction l1 generalizing m with
  | nil => simp
  | cons a t ih =>
    cases m with
    | zero => simp at h
    | succ k =>
      simp only [List.cons_append, List.drop_succ_cons, List.length_cons]
      rw [ih k (by simpa using h)]
      congr 1
      omega

/-- Writing `src` at cursor `loc` does not disturb positions at or past
`loc + n` when `|src| ≤ n`: the all-zero suffix stays all-zero. -/
theorem setRange_drop_allZero (result src : List Nat) (loc n : Nat)
    (hloc : loc ≤ result.length) (hsrc : src.length ≤ n)
    (hz : ∀ x ∈ result.drop loc, x = 0) :
    ∀ x ∈ (setRange result loc src).drop (loc + n), x = 0 := by
  intro x hx
  have hlen : (result.take loc).length = loc := by simp; omega
  rw [setRange, dropAppend _ _ _ (by rw [hlen]; omega), hlen] at hx
  have h2 : loc + n - loc = n := by omega
  rw [h2] at hx
  by_cases hc : src.length ≤ result.length - loc
  · rw [goCopy] at hx
    have htl : (src.take (result.drop loc).length).length = src.length := by simp; omega
    rw [dropAppend _ _ _ (by rw [htl]; omega), htl, List.drop_drop] at hx
    exact hz x (List.drop_subset _ _ hx)
  · rw [List.drop_eq_nil_of_le (by rw [goCopy_length]; simp; omega)] at hx
    simp at hx

/-- Invariant of the delta instruction loop: a successful run preserves
the result-buffer length, never moves the write cursor backwards, and —
since every instruction writes exactly at the cursor and advances it —
keeps the suffix of the buffer past the final cursor all-zero when it
started all-zero (those positions are never written). -/
theorem applyDeltaLoop_ok (base : List Nat) :
    ∀ (fuel : Nat) (patch result : List Nat) (loc : Nat) (res : List Nat) (loc' : Nat),
      applyDeltaLoop base fuel patch result loc = .ok (res, loc') →
      res.length = result.length ∧ loc ≤ loc' ∧
        ((∀ x ∈ result.drop loc, x = 0) → ∀ x ∈ res.drop loc', x = 0) := by
  intro fuel
  induction fuel with
  | zero =>
    intro patch result loc res loc' h
    exact absurd h (by simp [applyDeltaLoop])
  | succ n ih =>
    intro patch result loc res loc' h
    match patch with
    | [] =>
      rw [applyDeltaLoop] at h
      obtain ⟨h1, h2⟩ : result = res ∧ loc = loc' := by
        cases h
        exact ⟨rfl, rfl⟩
      subst h1
      subst h2
      exact ⟨rfl, le_refl _, fun hz => hz⟩
    | op :: rest =>
      rw [applyDeltaLoop] at h
      by_cases h0 : op = 0
      · rw [if_pos h0] at h
        simp at h
      rw [if_neg h0] at h
      by_cases hins : op &&& 0x80 = 0
      · rw [if_pos hins] at h
        by_cases hcr : result.length < loc ∨ rest.length < op
        · rw [if_pos hcr] at h
          simp at h
        rw [if_neg hcr] at h
        push_neg at hcr
        obtain ⟨hc1, hc2⟩ := hcr
        obtain ⟨hl, hle, hz⟩ := ih _ _ _ _ _ h
        refine ⟨?_, by omega, ?_⟩
        · rw [hl, setRange_length _ _ _ (by omega)]
        · intro hz0
          exact hz (setRange_drop_allZero result (rest.take op) loc op (by omega)
            (by rw [List.length_take]; exact min_le_left _ _) hz0)
      rw [if_neg hins] at h
      cases hfa : fieldAssemble op (op :: rest) 1 [(0, 0), (1, 8), (2, 16), (3, 24)] 0 with
      | none =>
        rw [hfa] at h
        simp at h
      | some v1 =>
        obtain ⟨copyOffset, i1⟩ := v1
        rw [hfa] at h
        simp only at h
        cases hfb : fieldAssemble op (op :: rest) i1 [(4, 0), (5, 8), (6, 16)] 0 with
        | none =>
          rw [hfb] at h
          simp at h
        | some v2 =>
          obtain ⟨cl0, i2⟩ := v2
          rw [hfb] at h
          simp only at h
          by_cases hg1 : copyOffset + copyLen cl0 > base.length
          · rw [if_pos hg1] at h
            simp at h
          rw [if_neg hg1] at h
          by_cases hg2 : result.length < loc
          · rw [if_pos hg2] at h
            simp at h
          rw [if_neg hg2] at h
          by_cases hg3 : copyLen cl0 > result.length - loc
          · rw [if_pos hg3] at h
            simp at h
          rw [if_neg hg3] at h
          push_neg at hg2
          obtain ⟨hl, hle, hz⟩ := ih _ _ _ _ _ h
          refine ⟨?_, by omega, ?_⟩
          · rw [hl, setRange_length _ _ _ (by omega)]
          · intro hz0
            exact hz (setRange_drop_allZero result ((base.drop copyOffset).take (copyLen cl0))
              loc (copyLen cl0) (by omega)
              (by rw [List.length_take]; exact min_le_left _ _) hz0)

/-- A successful `applyDelta` returns a buffer of exactly the declared
result length (the loop starts from `replicate resultLength 0` and
preserves length). -/
theorem applyDelta_ok_length (base patch res : List Nat) (rlen : Nat)
    (h : applyDelta base patch = .ok (res, rlen)) :
    res.length = rlen := by
  rw [applyDelta] at h
  cases hd : decodeVarint patch with
  | none =>
    rw [hd] at h
    simp at h
  | some v =>
    obtain ⟨bl, n⟩ := v
    rw [hd] at h
    simp only at h
    by_cases hbl : bl ≠ base.length
    · rw [if_pos hbl] at h
      simp at h
    rw [if_neg hbl] at h
    cases hd2 : decodeVarint (patch.drop n) with
    | none =>
      rw [hd2] at h
      simp at h
    | some v2 =>
      obtain ⟨resultLength, n2⟩ := v2
      rw [hd2] at h
      simp only at h
      cases hloop : applyDeltaLoop base (((patch.drop n).drop n2).length + 1)
          ((patch.drop n).drop n2) (List.replicate resultLength 0) 0 with
      | ok v3 =>
        obtain ⟨result, lfin⟩ := v3
        rw [hloop] at h
        obtain ⟨h1, h2⟩ : result = res ∧ resultLength = rlen := by
          cases h
          exact ⟨rfl, rfl⟩
        subst h1
        subst h2
        have := (applyDeltaLoop_ok base _ _ _ _ _ _ hloop).1
        simpa using this
      | err e =>
        rw [hloop] at h
        simp at h
      | crash =>
        rw [hloop] at h
        simp at h
      | diverge =>
        rw [hloop] at h
        simp at h

/-! ### Claim theorems -/

/-- C2 (code bug): the claim that every byte access of the pack-reading
code is bounds-checked is right about the intent but wrong about the
code: `decodeVarint` reads `buf[n]` with no bounds check, so the one-byte
buffer `80` (a truncated varint, reachable as the decompressed delta
stream of a corrupt pack) makes it index past the end — a runtime panic
(`none` / `crash`), not a structured error. -/
theorem decodeVarint_truncated_crashes :
    decodeVarint [128] = none ∧ applyDelta [] [128] = .crash := by
  constructor <;> rfl

/-- C3 (code bug): `FindOffset` performs no high-bit check on the matched
offset-table entry (the source even carries `// TODO: check for 64-bit
offset`): on `cex3Pack`, whose stored offset for id `00…00` is
`80 00 00 00`, it returns `0x80000000` as an ordinary offset instead of
failing with an unsupported-pack error. -/
theorem findOffset_highBit_returned :
    findOffset cex3Pack cex1Id = .ok 2147483648 := by
  rfl

/-- C1, counterexample: for target id `00…00` on `cex1Pack` the fan-out
window of first byte `0x00` is empty (`fan[0] = 0`, as the first conjunct
shows by reading the fan-out table), yet `FindOffset` compares the target
against a stored id (the probe list is `[0]`, not `[]`) before returning
not-found — contradicting "returns not-found without comparing any
stored id". -/
theorem findOffset_emptyWindow_compares :
    u32At cex1Pack.index 8 = some 0 ∧
      findOffsetRun cex1Pack cex1Id = (.err .notExist, [0]) := by
  constructor <;> rfl

/-- C5, counterexample: the delta stream `00 01` (base length 0, result
length 1, no instructions) writes zero bytes, so the final write cursor
is 0 ≠ 1 (second conjunct: the instruction loop ends at cursor 0), yet
`applyDelta` succeeds, returning the zero-filled buffer — contradicting
"a stream that writes fewer bytes than the declared result length is
rejected". -/
theorem applyDelta_underfilled_succeeds :
    applyDelta [] [0, 1] = .ok ([0], 1) ∧
      applyDeltaLoop [] 1 [] (List.replicate 1 0) 0 = .ok ([0], 0) := by
  constructor <;> rfl

/-- C5 (amended): `applyDelta` performs no final write-cursor check: once
the instruction stream is exhausted, the loop succeeds immediately with
whatever cursor it has reached, never comparing it to the declared result
length. -/
theorem applyDeltaLoop_exhausted_succeeds (base result : List Nat) (fuel loc : Nat) :
    applyDeltaLoop base (fuel + 1) [] result loc = .ok (result, loc) := by
  rfl

/-- C7 (confirmed): for every byte `b`, the type code the entry decoder
extracts — `objTypeOfHeader b`, the source's `objHeader & 0x71 >> 4`,
which Go's precedence parses as `(b & 0x71) >> 4` — equals
`(b >> 4) & 0b111`, and the low size bits `sizeLowBits b` equal
`b & 0x0F`; the `0x71` mask is thus equivalent to the conventional
`0x70`. -/
theorem objTypeOfHeader_eq (b : Nat) (h : b < 256) :
    objTypeOfHeader b = (b >>> 4) &&& 7 ∧ sizeLowBits b = b &&& 15 := by
  revert b h; decide

/-- C7, witness at the concrete header byte `0xB1`. -/
theorem objTypeOfHeader_eq_witness :
    objTypeOfHeader 177 = (177 >>> 4) &&& 7 ∧ sizeLowBits 177 = 177 &&& 15 :=
  objTypeOfHeader_eq 177 (by decide)

/-- C4 (code bug): `readRaw` rejects an ofs-delta base offset only when
it exceeds the entry offset or the pack length; a base offset of ZERO
passes both checks, so on `cex4Pack` (entry `60 00`: ofs-delta whose
offset varint decodes to 0) the code recurses on `offset − 0 = offset`
forever: for EVERY recursion fuel the model returns `diverge` — genuine
nontermination, where the claim (and the format) demand `ErrBadDelta`. -/
theorem readRaw_zeroOfsDelta_diverges (inflate : List Nat → Option (List Nat)) (fuel : Nat) :
    readRaw inflate cex4Pack fuel 0 = .diverge := by
  induction fuel with
  | zero => rfl
  | succ n ih =>
    have h : readRaw inflate cex4Pack (n + 1) 0
        = (readRaw inflate cex4Pack n 0).bind
            (fun bres => finishTail inflate cex4Pack 0 1 bres.1 bres.2.1 (some bres.2.2)) := rfl
    rw [h, ih]
    rfl

/-- C6, counterexample: in a repository whose loaders are `packD` (holds
the ref-delta object `01…01` whose base is `02…02`) and `packX` (holds
the base `02…02`), loading `01…01` fails with not-found — even though the
object is stored in `packD` (third conjunct) and its base is loadable
from `packX` (second conjunct).  Ref-delta resolution is pack-local, not
through the repository's loader set. -/
theorem refDelta_crossPack_notFound :
    repoLoadObject
        [packLoadObject inflateConst packD 1, packLoadObject inflateConst packX 1] idD
      = .err .notExist ∧
    packLoadObject inflateConst packX 1 idX = .ok ⟨"blob", 1, [42]⟩ ∧
    findOffset packD idD = .ok 0 := by
  refine ⟨?_, ?_, ?_⟩ <;> rfl

/-- C6 (amended): ref-delta base resolution is pack-local — `readRaw`
looks the 20-byte base id up with the SAME pack's own `FindOffset`; when
that index does not contain the base id, the entry fails with
`ErrNotExist` regardless of what other loaded packs or the loose store
contain. -/
theorem readRaw_refDelta_packLocal (inflate : List Nat → Option (List Nat)) (p : Pack)
    (fuel offset s i : Nat) (baseId : List Nat)
    (h1 : entryHeader p offset = .ok (7, s, i))
    (h2 : sliceGo p.data (u32 (offset + i + 1)) (u32 (offset + i + 21)) = some baseId)
    (h3 : findOffset p (hexEncode baseId) = .err .notExist) :
    readRaw inflate p (fuel + 1) offset = .err .notExist := by
  simp only [readRaw, h1, Outcome.bind]
  norm_num
  rw [h2]
  simp [h3]

/-- C6, witness: the amended theorem applied to `packD` at offset 0. -/
theorem readRaw_refDelta_packLocal_witness :
    readRaw inflateConst packD 1 0 = .err .notExist :=
  readRaw_refDelta_packLocal inflateConst packD 0 0 0 0 (List.replicate 20 2)
    (by rfl) (by rfl) (by rfl)

/-- C1 (amended): `FindOffset` does not restrict its binary search to the
fan-out window — `lo, hi` start at `0, N` — and an empty fan-out window
is not short-circuited: whenever the initial probe's 20-byte slice is in
range, a stored-id comparison IS performed, and its index is the fan-out
value read at byte offset `4 * id[0] mod 256` of the table — `id[0]`
being the first CHARACTER of the hex id string, not the first byte of the
decoded id. -/
theorem findOffset_firstProbe (p : Pack) (c0 : Nat) (idRest idBytes fan sus : List Nat)
    (size cnt : Nat)
    (hdec : hexDecode (c0 :: idRest) = some idBytes)
    (hfan : sliceGo p.index 8 1032 = some fan)
    (hsize : u32At fan 1020 = some size)
    (hcnt : u32At fan (4 * c0 % 256) = some cnt)
    (hsus : sliceGo p.index (u32 (8 + 1024 + cnt * 20)) (u32 (u32 (8 + 1024 + cnt * 20) + 20))
      = some sus) :
    (findOffsetRun p (c0 :: idRest)).2.head? = some cnt := by
  simp only [findOffsetRun, hdec, hfan, hsize, hcnt]
  show (findOffsetLoop p idBytes size ((size + 1) + 1) 0 size cnt
    (u32 (8 + 1024 + cnt * 20))).2.head? = some cnt
  simp only [findOffsetLoop, hsus]
  rfl

/-- C1, witness: the amended theorem applied to `cex1Pack` and the target
id `00…00`: the first (and only) compared slot is `fan[192/4] = 0`. -/
theorem findOffset_firstProbe_witness :
    (findOffsetRun cex1Pack cex1Id).2.head? = some 0 :=
  findOffset_firstProbe cex1Pack 48 (List.replicate 39 48) (List.replicate 20 0)
    ((cex1Pack.index.drop 8).take 1024) (List.replicate 20 255) 1 0
    (by rfl) (by rfl) (by rfl) (by rfl) (by rfl)

/-- C9 (confirmed): whenever `applyDelta` succeeds, the byte sequence it
returns has length exactly the result-length varint decoded from the
front of the delta stream (after the base-length varint, which must equal
`|base|`), even when the instruction loop's final write cursor `loc'`
falls short of that length; and every position at or past the final
cursor — i.e. every position no copy or insert instruction ever wrote,
since writes happen exactly at the monotonically advancing cursor — holds
the zero byte of the initial `make([]byte, resultLength)` buffer. -/
theorem applyDelta_result_spec (base patch res : List Nat) (rlen : Nat)
    (h : applyDelta base patch = .ok (res, rlen)) :
    res.length = rlen ∧
      ∃ n n2 loc', decodeVarint patch = some (base.length, n) ∧
        decodeVarint (patch.drop n) = some (rlen, n2) ∧
        applyDeltaLoop base (((patch.drop n).drop n2).length + 1) ((patch.drop n).drop n2)
          (List.replicate rlen 0) 0 = .ok (res, loc') ∧
        ∀ x ∈ res.drop loc', x = 0 := by
  rw [applyDelta] at h
  cases hd : decodeVarint patch with
  | none =>
    rw [hd] at h
    simp at h
  | some v =>
    obtain ⟨bl, n⟩ := v
    rw [hd] at h
    simp only at h
    by_cases hbl : bl ≠ base.length
    · rw [if_pos hbl] at h
      simp at h
    rw [if_neg hbl] at h
    push_neg at hbl
    subst hbl
    cases hd2 : decodeVarint (patch.drop n) with
    | none =>
      rw [hd2] at h
      simp at h
    | some v2 =>
      obtain ⟨resultLength, n2⟩ := v2
      rw [hd2] at h
      simp only at h
      cases hloop : applyDeltaLoop base (((patch.drop n).drop n2).length + 1)
          ((patch.drop n).drop n2) (List.replicate resultLength 0) 0 with
      | ok v3 =>
        obtain ⟨result, lfin⟩ := v3
        rw [hloop] at h
        obtain ⟨h1, h2⟩ : result = res ∧ resultLength = rlen := by
          cases h
          exact ⟨rfl, rfl⟩
        subst h1
        subst h2
        obtain ⟨hlen, _, hzero⟩ := applyDeltaLoop_ok base _ _ _ _ _ _ hloop
        refine ⟨by simpa using hlen, n, n2, lfin, rfl, hd2, hloop, ?_⟩
        exact hzero (fun x hx => by
          have := List.drop_subset 0 (List.replicate resultLength 0) hx
          exact List.eq_of_mem_replicate this)
      | err e =>
        rw [hloop] at h
        simp at h
      | crash =>
        rw [hloop] at h
        simp at h
      | diverge =>
        rw [hloop] at h
        simp at h

/-- C9, witness: the delta stream `00 01` over the empty base succeeds
with a 1-byte zero-filled result even though no instruction wrote. -/
theorem applyDelta_result_spec_witness :
    applyDelta [] [0, 1] = .ok ([0], 1) ∧ ([0] : List Nat).length = 1 :=
  ⟨rfl, (applyDelta_result_spec [] [0, 1] [0] 1 rfl).1⟩

/-- Validity of a pack with respect to the abstract zlib: whenever an
entry header parses to a NON-delta type, the zlib stream that begins
after the header inflates (when it inflates at all) to exactly the
declared uncompressed size.  This is the format invariant "the entry
size field describes the decompressed payload", which the code itself
never checks. -/
def ValidPack (inflate : List Nat → Option (List Nat)) (p : Pack) : Prop :=
  ∀ off t s i payload bs, entryHeader p off = .ok (t, s, i) → t ≠ 6 → t ≠ 7 →
    sliceFrom p.data (u32 (off + i + 1)) = some payload → inflate payload = some bs →
    bs.length = s

/-- A successful `finishTail` with a delta base returns a body whose
length equals the returned size: the body and size both come from
`applyDelta`. -/
theorem finishTail_some_ok (inflate : List Nat → Option (List Nat)) (p : Pack)
    (offset i bt bs0 : Nat) (bbytes : List Nat) (t s : Nat) (body : List Nat)
    (h : finishTail inflate p offset i bt bs0 (some bbytes) = .ok (t, s, body)) :
    body.length = s := by
  rw [finishTail] at h
  cases hsl : sliceFrom p.data (u32 (offset + i + 1)) with
  | none =>
    rw [hsl] at h
    simp at h
  | some payload =>
    rw [hsl] at h
    simp only at h
    cases hin : inflate payload with
    | none =>
      rw [hin] at h
      simp at h
    | some raw =>
      rw [hin] at h
      simp only at h
      cases had : applyDelta bbytes raw with
      | ok rr =>
        obtain ⟨result, rlen⟩ := rr
        rw [had] at h
        obtain ⟨h1, h2, h3⟩ : bt = t ∧ rlen = s ∧ result = body := by
          cases h
          exact ⟨rfl, rfl, rfl⟩
        subst h2
        subst h3
        exact applyDelta_ok_length bbytes raw _ _ had
      | err e =>
        rw [had] at h
        simp [Outcome.bind] at h
      | crash =>
        rw [had] at h
        simp [Outcome.bind] at h
      | diverge =>
        rw [had] at h
        simp [Outcome.bind] at h

/-- A successful `finishTail` without a base passes the header's type and
size through and returns the inflated payload as the body. -/
theorem finishTail_none_ok (inflate : List Nat → Option (List Nat)) (p : Pack)
    (offset i ot os : Nat) (t s : Nat) (body : List Nat)
    (h : finishTail inflate p offset i ot os none = .ok (t, s, body)) :
    t = ot ∧ s = os ∧
      ∃ payload, sliceFrom p.data (u32 (offset + i + 1)) = some payload ∧
        inflate payload = some body := by
  rw [finishTail] at h
  cases hsl : sliceFrom p.data (u32 (offset + i + 1)) with
  | none =>
    rw [hsl] at h
    simp at h
  | some payload =>
    rw [hsl] at h
    simp only at h
    cases hin : inflate payload with
    | none =>
      rw [hin] at h
      simp at h
    | some raw =>
      rw [hin] at h
      obtain ⟨h1, h2, h3⟩ : ot = t ∧ os = s ∧ raw = body := by
        cases h
        exact ⟨rfl, rfl, rfl⟩
      subst h1
      subst h2
      subst h3
      exact ⟨rfl, rfl, payload, rfl, hin⟩

/-- On a valid pack, every successful `readRaw` returns a body whose
length is the returned size: non-delta entries by `ValidPack`, deltified
entries because `applyDelta` materialises exactly its declared result
length. -/
theorem readRaw_ok_length (inflate : List Nat → Option (List Nat)) (p : Pack)
    (hv : ValidPack inflate p) (fuel offset t s : Nat) (body : List Nat)
    (h : readRaw inflate p fuel offset = .ok (t, s, body)) :
    body.length = s := by
  cases fuel with
  | zero => exact absurd h (by simp [readRaw])
  | succ n =>
    rw [readRaw] at h
    cases hh : entryHeader p offset with
    | ok hdr =>
      obtain ⟨ot, os, i⟩ := hdr
      rw [hh] at h
      simp only [Outcome.bind] at h
      by_cases h6 : ot = 6
      · rw [if_pos h6] at h
        cases hg : p.data.get? (u32 (offset + (i + 1))) with
        | none =>
          rw [hg] at h
          simp at h
        | some b =>
          rw [hg] at h
          simp only at h
          cases ho : ofsLoop p.data offset (p.data.length + 2) b (b &&& 0x7F) (i + 1) with
          | ok bo =>
            obtain ⟨baseOffset, i2⟩ := bo
            rw [ho] at h
            simp only [Outcome.bind] at h
            by_cases hguard : baseOffset > u32 p.data.length ∨ baseOffset > offset
            · rw [if_pos hguard] at h
              simp at h
            rw [if_neg hguard] at h
            cases hrec : readRaw inflate p n (u32sub offset baseOffset) with
            | ok bres =>
              rw [hrec] at h
              simp only [Outcome.bind] at h
              exact finishTail_some_ok inflate p offset i2 bres.1 bres.2.1 bres.2.2 t s body h
            | err e =>
              rw [hrec] at h
              simp [Outcome.bind] at h
            | crash =>
              rw [hrec] at h
              simp [Outcome.bind] at h
            | diverge =>
              rw [hrec] at h
              simp [Outcome.bind] at h
          | err e =>
            rw [ho] at h
            simp [Outcome.bind] at h
          | crash =>
            rw [ho] at h
            simp [Outcome.bind] at h
          | diverge =>
            rw [ho] at h
            simp [Outcome.bind] at h
      rw [if_neg h6] at h
      by_cases h7 : ot = 7
      · rw [if_pos h7] at h
        cases hsl : sliceGo p.data (u32 (offset + i + 1)) (u32 (offset + i + 21)) with
        | none =>
          rw [hsl] at h
          simp at h
        | some baseId =>
          rw [hsl] at h
          simp only at h
          cases hfo : findOffset p (hexEncode baseId) with
          | ok baseOffset =>
            rw [hfo] at h
            simp only [Outcome.bind] at h
            cases hrec : readRaw inflate p n baseOffset with
            | ok bres =>
              rw [hrec] at h
              simp only [Outcome.bind] at h
              exact finishTail_some_ok inflate p offset (i + 20) bres.1 bres.2.1 bres.2.2 t s body h
            | err e =>
              rw [hrec] at h
              simp [Outcome.bind] at h
            | crash =>
              rw [hrec] at h
              simp [Outcome.bind] at h
            | diverge =>
              rw [hrec] at h
              simp [Outcome.bind] at h
          | err e =>
            rw [hfo] at h
            simp [Outcome.bind] at h
          | crash =>
            rw [hfo] at h
            simp [Outcome.bind] at h
          | diverge =>
            rw [hfo] at h
            simp [Outcome.bind] at h
      rw [if_neg h7] at h
      obtain ⟨ht, hs, payload, hsl, hin⟩ := finishTail_none_ok inflate p offset i ot os t s body h
      subst ht
      subst hs
      exact hv offset t s i payload body hh h6 h7 hsl hin
    | err e =>
      rw [hh] at h
      simp [Outcome.bind] at h
    | crash =>
      rw [hh] at h
      simp [Outcome.bind] at h
    | diverge =>
      rw [hh] at h
      simp [Outcome.bind] at h

/-- C8 (confirmed): on a valid pack, every object `Pack.LoadObject`
returns carries a declared `Size` equal to the number of bytes of its
fully-consumed body; for deltified entries the size is the delta's result
length (`readRaw` substitutes `applyDelta`'s result length, whose buffer
has exactly that many bytes). -/
theorem packLoadObject_size (inflate : List Nat → Option (List Nat)) (p : Pack)
    (fuel : Nat) (id : List Nat) (obj : Obj) (hv : ValidPack inflate p)
    (h : packLoadObject inflate p fuel id = .ok obj) :
    obj.size = obj.body.length := by
  rw [packLoadObject] at h
  cases hf : findOffset p id with
  | ok offset =>
    rw [hf] at h
    simp only [Outcome.bind] at h
    rw [readObject] at h
    cases hr : readRaw inflate p fuel offset with
    | ok r =>
      obtain ⟨t, s, body⟩ := r
      rw [hr] at h
      simp only [Outcome.bind] at h
      have hlen : body.length = s := readRaw_ok_length inflate p hv fuel offset t s body hr
      by_cases h1 : t = 1
      · rw [if_pos h1] at h
        cases h
        simpa using hlen.symm
      rw [if_neg h1] at h
      by_cases h2 : t = 2
      · rw [if_pos h2] at h
        cases h
        simpa using hlen.symm
      rw [if_neg h2] at h
      by_cases h3 : t = 3
      · rw [if_pos h3] at h
        cases h
        simpa using hlen.symm
      rw [if_neg h3] at h
      simp at h
    | err e =>
      rw [hr] at h
      simp [Outcome.bind] at h
    | crash =>
      rw [hr] at h
      simp [Outcome.bind] at h
    | diverge =>
      rw [hr] at h
      simp [Outcome.bind] at h
  | err e =>
    rw [hf] at h
    simp [Outcome.bind] at h
  | crash =>
    rw [hf] at h
    simp [Outcome.bind] at h
  | diverge =>
    rw [hf] at h
    simp [Outcome.bind] at h

/-- The fixture pack `p8` is valid for `inflateConst`: its only parseable
entry is the blob of declared size 1 at offset 0, whose payload inflates
to the single byte `42`. -/
theorem validPack_p8 : ValidPack inflateConst p8 := by
  intro off t s i payload bs h1 h6 h7 h2 h3
  match off with
  | 0 =>
    have he : entryHeader p8 0 = .ok (3, 1, 0) := rfl
    rw [he] at h1
    obtain ⟨ht, hs, hi⟩ : (3 : Nat) = t ∧ (1 : Nat) = s ∧ (0 : Nat) = i := by
      cases h1
      exact ⟨rfl, rfl, rfl⟩
    subst ht
    subst hs
    subst hi
    have hsl : sliceFrom p8.data (u32 (0 + 0 + 1)) = some [] := rfl
    rw [hsl] at h2
    cases h2
    have hic : inflateConst [] = some [42] := rfl
    rw [hic] at h3
    cases h3
    rfl
  | (k + 1) =>
    have hg : p8.data.get? (k + 1) = none := by
      show ([49] : List Nat).get? (k + 1) = none
      cases k <;> rfl
    rw [entryHeader, hg] at h1
    exact Outcome.noConfusion h1

/-- C8, witness: `p8` is valid, loading id `00…00` from it succeeds, and
the theorem's conclusion holds at the returned object. -/
theorem packLoadObject_size_witness :
    packLoadObject inflateConst p8 1 cex1Id = .ok ⟨"blob", 1, [42]⟩ ∧
      (Obj.mk "blob" 1 [42]).size = (Obj.mk "blob" 1 [42]).body.length :=
  ⟨rfl, packLoadObject_size inflateConst p8 1 cex1Id ⟨"blob", 1, [42]⟩ validPack_p8 rfl⟩

/-- `ResolveRef` on a name other than `"HEAD"` performs no recursion:
every branch returns directly. -/
theorem resolveRef_nonHead (fs : RefFS) (ref : String) (h : ref ≠ "HEAD")
    (n : Nat) : resolveRef fs (n + 1) ref ≠ .diverge := by
  rw [resolveRef, if_neg h]
  cases h1 : fs.fileContent ("refs/heads/" ++ ref) with
  | some d => simp
  | none =>
    cases h2 : fs.fileContent ("refs/tags/" ++ ref) with
    | some d => simp
    | none =>
      cases h3 : fs.fileContent ref with
      | some d => simp
      | none => by_cases h4 : fs.isCommit ref <;> simp [h4]

/-- `resolveIndirect` on the `HEAD` file terminates when the `HEAD`
indirection is acyclic (`headOk`), with one further `ResolveRef` frame at
most. -/
theorem resolveIndirect_head (fs : RefFS) (hok : headOk fs = true) (n : Nat)
    (hf : 1 ≤ n) : resolveIndirect fs (n + 1) "HEAD" ≠ .diverge := by
  rw [resolveIndirect]
  cases hc : fs.fileContent "HEAD" with
  | none => simp
  | some data =>
    show (if (trimSpace data).data.length < 4 then Outcome.crash
          else if strTake (trimSpace data) 4 = "ref:" then
            resolveRef fs n (trimSpace (strDrop (trimSpace data) 4))
          else .ok (trimSpace data)) ≠ .diverge
    by_cases h4 : (trimSpace data).data.length < 4
    · rw [if_pos h4]
      simp
    rw [if_neg h4]
    by_cases hrf : strTake (trimSpace data) 4 = "ref:"
    · rw [if_pos hrf]
      have htgt : trimSpace (strDrop (trimSpace data) 4) ≠ "HEAD" := by
        intro hcontra
        have hok2 : headOk fs = false := by
          rw [headOk, hc]
          show (if 4 ≤ (trimSpace data).data.length ∧ strTake (trimSpace data) 4 = "ref:"
                  ∧ trimSpace (strDrop (trimSpace data) 4) = "HEAD" then false else true) = false
          rw [if_pos ⟨by omega, hrf, hcontra⟩]
        rw [hok2] at hok
        exact Bool.noConfusion hok
      obtain ⟨m, rfl⟩ : ∃ m, n = m + 1 := ⟨n - 1, by omega⟩
      exact resolveRef_nonHead fs _ htgt m
    · rw [if_neg hrf]
      simp

/-- With the concrete cyclic reference files `cycFS` (`HEAD` contains
`"ref: HEAD"`), both resolution functions exhaust every fuel: genuine
nontermination. -/
theorem cycFS_diverges (fuel : Nat) :
    resolveRef cycFS fuel "HEAD" = .diverge ∧
      resolveIndirect cycFS fuel "HEAD" = .diverge := by
  induction fuel with
  | zero => exact ⟨rfl, rfl⟩
  | succ n ih =>
    constructor
    · rw [resolveRef, if_pos rfl]
      exact ih.2
    · rw [resolveIndirect]
      have hc : cycFS.fileContent "HEAD" = some "ref: HEAD" := rfl
      rw [hc]
      show (if (trimSpace "ref: HEAD").data.length < 4 then Outcome.crash
            else if strTake (trimSpace "ref: HEAD") 4 = "ref:" then
              resolveRef cycFS n (trimSpace (strDrop (trimSpace "ref: HEAD") 4))
            else .ok (trimSpace "ref: HEAD")) = .diverge
      rw [if_neg (by decide), if_pos (by decide)]
      have ht : trimSpace (strDrop (trimSpace "ref: HEAD") 4) = "HEAD" := by decide
      rw [ht]
      exact ih.1

/-- C10 (confirmed): when the reference files reachable from the start
form an acyclic `ref:` chain — for this code the only reachable cycle is
the `HEAD` file naming `HEAD` itself, which `headOk` excludes —
`ResolveRef` and `resolveIndirect` terminate within recursion depth 3
(the chain the code follows has at most one `ref:` hop, since only the
`HEAD` branch chases indirections); on a cyclic chain (`cycFS`) both
recurse forever, exhausting every fuel. -/
theorem resolveRef_chain_termination (fs : RefFS) (ref : String) (fuel : Nat)
    (hok : headOk fs = true) (hfuel : 3 ≤ fuel) :
    resolveRef fs fuel ref ≠ .diverge ∧ resolveIndirect fs fuel "HEAD" ≠ .diverge ∧
      ∀ fuel2, resolveRef cycFS fuel2 "HEAD" = .diverge ∧
        resolveIndirect cycFS fuel2 "HEAD" = .diverge := by
  obtain ⟨m, rfl⟩ : ∃ m, fuel = m + 2 := ⟨fuel - 2, by omega⟩
  refine ⟨?_, ?_, cycFS_diverges⟩
  · by_cases h : ref = "HEAD"
    · subst h
      rw [resolveRef, if_pos rfl]
      exact resolveIndirect_head fs hok m (by omega)
    · exact resolveRef_nonHead fs ref h (m + 1)
  · exact resolveIndirect_head fs hok (m + 1) (by omega)

/-- C10, witness: applied to the acyclic `fsA` at fuel 3; the cyclic
conjunct is also exhibited at fuel 7. -/
theorem resolveRef_chain_termination_witness :
    (resolveRef fsA 3 "HEAD" ≠ .diverge ∧ resolveIndirect fsA 3 "HEAD" ≠ .diverge ∧
      ∀ fuel2, resolveRef cycFS fuel2 "HEAD" = .diverge ∧
        resolveIndirect cycFS fuel2 "HEAD" = .diverge) ∧
      resolveRef fsA 3 "HEAD" = .ok "abc123" :=
  ⟨resolveRef_chain_termination fsA "HEAD" 3 (by decide) (by omega), by decide⟩


